import Mathlib

/-!
Shallow embedding of the `soda` DSO-to-relocatable-object converter.

The definitions below are translated from the Rust sources:

* `src/elf/pass/section.rs` — the section coalescing pass (CLS),
* `src/elf/pass/symbol.rs`  — the symbol synthesis pass,
* `src/elf/pass/reloc.rs`   — the relocation conversion pass,
* `src/pass.rs`             — the generic pass manager,
* `src/main.rs`             — the default output name computation.

Modelling conventions:

* machine integers (`u64`, `u8`, `usize`) are modelled as `Nat`; the
  arithmetic performed by the passes never relies on wrap-around;
* fallible code returns `Except`/`Option`; a Rust panic (a failed
  `unwrap`, `assert!`, `todo!` or out-of-bounds slice index) is a
  distinguished outcome (`Option.none` or `RunOutcome.panic`);
* parsed library views (sections, segments, dynamic symbols, dynamic
  relocations) are records that carry the values the Rust code reads
  from them.
-/

set_option autoImplicit false

namespace Soda

/-! ## ELF constants (from the `object::elf` crate, as used by the sources) -/

def PT_LOAD : Nat := 1

def SHF_WRITE : Nat := 0x1
def SHF_ALLOC : Nat := 0x2
def SHF_EXECINSTR : Nat := 0x4

def STB_LOCAL : Nat := 0
def STB_GLOBAL : Nat := 1
def STB_GNU_UNIQUE : Nat := 10

def R_X86_64_64 : Nat := 1
def R_X86_64_GLOB_DAT : Nat := 6
def R_X86_64_JUMP_SLOT : Nat := 7
def R_X86_64_RELATIVE : Nat := 8
def R_X86_64_DTPMOD64 : Nat := 16

/-! ## Input data model

An `ElfInput` is the view of the parsed input shared library that the
three ELF passes read: raw program headers, the section table, the
dynamic symbol table and the dynamic relocations.
-/

/-- An input section, as observed through `object::read`: its table index,
virtual address (`sh_addr`), size (`sh_size`), alignment, raw ELF flags
(`sh_flags`), uncompressed data bytes and name bytes. -/
structure InputSection where
  index : Nat
  addr : Nat
  size : Nat
  align : Nat
  shFlags : Nat
  data : List Nat
  nameBytes : List Nat
deriving Repr, DecidableEq

/-- A raw program header: its `p_type`, virtual address and memory size. -/
structure Segment where
  pType : Nat
  addr : Nat
  size : Nat
deriving Repr, DecidableEq

/-- `object::SymbolSection` for an ELF symbol, restricted to the variants
produced for ELF dynamic symbols. -/
inductive SymSection where
  | none
  | undefined
  | absolute
  | common
  | inSection (idx : Nat)
deriving Repr, DecidableEq

/-- `object::SymbolScope`. -/
inductive SymScope where
  | unknown
  | compilation
  | linkage
  | dynamic
deriving Repr, DecidableEq

/-- An input dynamic symbol, carrying the fields `create_output_symbol`
reads: table index, name bytes, address, size, kind (opaque tag),
`st_info`/`st_other`, scope, weakness and the section it is defined in. -/
structure InputSymbol where
  index : Nat
  nameBytes : List Nat
  address : Nat
  size : Nat
  kind : Nat
  stInfo : Nat
  stOther : Nat
  scope : SymScope
  weak : Bool
  symSection : SymSection
deriving Repr, DecidableEq

/-- `object::RelocationKind`, restricted to the shapes the conversion
pass distinguishes: the generic absolute kind, a raw ELF kind, or any
other kind (opaque tag). -/
inductive RelocationKind where
  | absolute
  | elf (rType : Nat)
  | other (tag : Nat)
deriving Repr, DecidableEq

/-- `object::RelocationTarget`. -/
inductive RelocationTarget where
  | symbol (idx : Nat)
  | inSection (idx : Nat)
  | absolute
deriving Repr, DecidableEq

/-- An input dynamic relocation (the fields read by the conversion pass). -/
structure InputReloc where
  kind : RelocationKind
  target : RelocationTarget
  addend : Int
  size : Nat
  encoding : Nat
deriving Repr, DecidableEq

/-- The machine architecture of the input, as reported by
`object::Object::architecture`. -/
inductive Arch where
  | x86_64
  | i386
  | aarch64
  | other (tag : Nat)
deriving Repr, DecidableEq

/-- The parsed input view read by the passes. -/
structure ElfInput where
  arch : Arch
  segments : List Segment
  sections : List InputSection
  dynSymbols : List InputSymbol
  dynRelocs : List (Nat × InputReloc)
deriving Repr, DecidableEq

/-! ## Output object model (the subset of `object::write::Object` the
passes use: sections, symbols and relocations, with ids being list
positions, which matches the sequential id allocation of the crate). -/

/-- `object::SectionFlags`: either not yet set (`None`, the state
`add_section` leaves a fresh section in) or raw ELF flags. -/
inductive SectionFlags where
  | noneFl
  | elf (shFlags : Nat)
deriving Repr, DecidableEq

/-- An output section: name bytes, flags, data buffer and alignment. -/
structure OutSection where
  nameBytes : List Nat
  flags : SectionFlags
  data : List Nat
  align : Nat
deriving Repr, DecidableEq

/-- `object::write::SymbolSection` as used here. -/
inductive OutSymbolSection where
  | none
  | undefined
  | absolute
  | common
  | inSection (id : Nat)
deriving Repr, DecidableEq

/-- `object::SymbolFlags` on an output symbol. -/
inductive SymbolFlags where
  | noneFl
  | elf (stInfo : Nat) (stOther : Nat)
deriving Repr, DecidableEq

/-- An output symbol (`object::write::Symbol`). -/
structure OutSymbol where
  nameBytes : List Nat
  value : Nat
  size : Nat
  kind : Nat
  scope : SymScope
  weak : Bool
  symSection : OutSymbolSection
  flags : SymbolFlags
deriving Repr, DecidableEq

/-- An output relocation (`object::write::Relocation`). -/
structure OutReloc where
  offset : Nat
  size : Nat
  kind : RelocationKind
  encoding : Nat
  symbol : Nat
  addend : Int
deriving Repr, DecidableEq

/-- The output relocatable object builder state. -/
structure OutputObject where
  sections : List OutSection
  symbols : List OutSymbol
  relocs : List (Nat × OutReloc)
deriving Repr, DecidableEq

/-- The empty output object (`object::write::Object::new`). -/
def OutputObject.empty : OutputObject :=
  { sections := [], symbols := [], relocs := [] }

/-! ## Section coalescing pass (`src/elf/pass/section.rs`) -/

/-- `is_section_in_segment` from `section.rs`. -/
def is_section_in_segment (sec : InputSection) (seg : Segment) : Bool :=
  decide (seg.addr ≤ sec.addr) && decide (sec.addr + sec.size ≤ seg.addr + seg.size)

/-- Insert `a` into `l` after every element `b` with `le b a`: the
insertion step of a stable insertion sort. -/
def insertStable {α : Type} (le : α → α → Bool) (a : α) : List α → List α
  | [] => [a]
  | b :: t => if le b a then b :: insertStable le a t else a :: b :: t

/-- A stable sort by `le` (insertion sort, processing the list left to
right).  A stable sort is uniquely determined as a function of the input
list and the key, so this computes the same list as Rust's stable
`slice::sort_by_key`. -/
def sortStable {α : Type} (le : α → α → Bool) (l : List α) : List α :=
  l.foldl (fun acc a => insertStable le a acc) []

/-- `collect_loadable_sections` from `section.rs`: for every program
header of type `PT_LOAD`, push every section that is not the sentinel at
index 0, has a non-zero address, and is wholly contained in the
segment's address range; finally sort the collected list by ascending
section address (stably, like Rust's `sort_by_key`). -/
def collect_loadable_sections (input : ElfInput) : List InputSection :=
  let collected := input.segments.foldl
    (fun acc seg =>
      if seg.pType ≠ PT_LOAD then acc
      else
        acc ++ input.sections.filter
          (fun sec =>
            decide (sec.index ≠ 0) && decide (sec.addr ≠ 0) &&
              is_section_in_segment sec seg))
    []
  sortStable (fun a b => decide (a.addr ≤ b.addr)) collected

/-- `get_output_section_flags` from `section.rs`. -/
def get_output_section_flags (input_sections : List InputSection) : SectionFlags :=
  let writable := input_sections.foldl
    (fun w sec => w || decide (sec.shFlags &&& SHF_WRITE ≠ 0)) false
  let executable := input_sections.foldl
    (fun e sec => e || decide (sec.shFlags &&& SHF_EXECINSTR ≠ 0)) false
  let raw0 := SHF_ALLOC
  let raw1 := if writable then raw0 ||| SHF_WRITE else raw0
  let raw2 := if executable then raw1 ||| SHF_EXECINSTR else raw1
  SectionFlags.elf raw2

/-- One entry of the CLS section map (`SectionMap` in `section.rs`):
input section index, and the input address range `[fst, snd)`. -/
structure SectionMap where
  index : Nat
  addrRange : Nat × Nat
deriving Repr, DecidableEq

/-- `CopyLodableSectionsOutput` from `section.rs`. -/
structure CopyLodableSectionsOutput where
  output_section_id : Nat
  output_section_symbol : Nat
  output_section_size : Nat
  section_maps : List SectionMap
deriving Repr, DecidableEq

/-- `CopyLodableSectionsOutput::get_section_map`. -/
def get_section_map (cls : CopyLodableSectionsOutput) (idx : Nat) :
    Option SectionMap :=
  cls.section_maps.find? (fun m => m.index == idx)

/-- `CopyLodableSectionsOutput::is_section_copied`. -/
def is_section_copied (cls : CopyLodableSectionsOutput) (idx : Nat) : Bool :=
  (get_section_map cls idx).isSome

/-- Copy `data` into `buf` at offset `addr` (the slice assignment
`output_buffer[range].copy_from_slice(&sec_data)`); `none` models the
out-of-bounds panic. The empty-data case is skipped by the source
before indexing. -/
def writeAt (buf : List Nat) (addr : Nat) (data : List Nat) : Option (List Nat) :=
  if data.isEmpty then some buf
  else if addr + data.length ≤ buf.length then
    some (buf.take addr ++ data ++ buf.drop (addr + data.length))
  else none

/-- The data-copy loop of `CopyLodableSectionsPass::run`: for each
retained section assert `data.len() ≤ size`, skip empty data, and copy
the bytes to `[addr, addr + data.len())`; `none` models a panic. -/
def copySections : List InputSection → List Nat → Option (List Nat)
  | [], buf => some buf
  | sec :: rest, buf =>
    if sec.data.length ≤ sec.size then
      match writeAt buf sec.addr sec.data with
      | some buf2 => copySections rest buf2
      | none => none
    else none

/-- The size/section-map loop of `CopyLodableSectionsPass::run`: starting
from `0`, each iteration overwrites the running size with
`addr + size` of the current section. -/
def computeOutputSize (secs : List InputSection) : Nat :=
  secs.foldl (fun _ sec => sec.addr + sec.size) 0

/-- The freshly created `soda` output section, as `add_section` leaves
it (kind program bits, no flags, empty data). -/
def sodaInitSection : OutSection :=
  { nameBytes := [0x73, 0x6f, 0x64, 0x61], flags := SectionFlags.noneFl,
    data := [], align := 1 }

/-- The section symbol created by `Object::section_symbol` for the
output section with id `secId`. -/
def sectionSymbolFor (secId : Nat) : OutSymbol :=
  { nameBytes := [], value := 0, size := 0, kind := 0,
    scope := SymScope.compilation, weak := false,
    symSection := OutSymbolSection.inSection secId,
    flags := SymbolFlags.noneFl }

/-- `CopyLodableSectionsPass::run` from `section.rs`, acting on an output
object builder. It creates the `soda` output section and its section
symbol, collects and sorts the loadable input sections, and (when the
collection is non-empty) sets the output section flags, records the
section map and size, and copies the section bytes into a zero-filled
buffer of the computed size. `none` models a panic inside the pass. -/
def clsRun (obj : OutputObject) (input : ElfInput) :
    Option (OutputObject × CopyLodableSectionsOutput) :=
  let secId := obj.sections.length
  let symId := obj.symbols.length
  let obj1 : OutputObject :=
    { obj with
        sections := obj.sections ++ [sodaInitSection],
        symbols := obj.symbols ++ [sectionSymbolFor secId] }
  let ret0 : CopyLodableSectionsOutput :=
    { output_section_id := secId, output_section_symbol := symId,
      output_section_size := 0, section_maps := [] }
  let input_sections := collect_loadable_sections input
  if input_sections.isEmpty then some (obj1, ret0)
  else
    let flags := get_output_section_flags input_sections
    let output_sec_size := computeOutputSize input_sections
    let maps := input_sections.map
      (fun sec => ({ index := sec.index,
                     addrRange := (sec.addr, sec.addr + sec.size) } : SectionMap))
    let output_sec_align := input_sections.foldl (fun m sec => max m sec.align) 0
    match copySections input_sections (List.replicate output_sec_size 0) with
    | some buffer =>
      let sodaSection2 : OutSection :=
        { sodaInitSection with
            flags := flags, data := buffer, align := output_sec_align }
      some ({ obj1 with sections := obj1.sections.set secId sodaSection2 },
            { ret0 with output_section_size := output_sec_size, section_maps := maps })
    | none => none

/-! ## Symbol synthesis pass (`src/elf/pass/symbol.rs`) -/

/-- `ObjectSymbol::section_index`: `Some` exactly for symbols defined in
a numbered section. -/
def sectionIndexOf (sym : InputSymbol) : Option Nat :=
  match sym.symSection with
  | SymSection.inSection idx => some idx
  | _ => none

/-- `create_output_symbol` from `symbol.rs`. The `assert!` on
`is_section_copied` is modelled by returning `none` (a panic) when it
fails. -/
def create_output_symbol (cls : CopyLodableSectionsOutput)
    (input_sym : InputSymbol) : Option OutSymbol :=
  let sectionOk :
      Option OutSymbolSection :=
    match input_sym.symSection with
    | SymSection.none => some OutSymbolSection.none
    | SymSection.undefined => some OutSymbolSection.undefined
    | SymSection.absolute => some OutSymbolSection.absolute
    | SymSection.common => some OutSymbolSection.common
    | SymSection.inSection sec_idx =>
      if is_section_copied cls sec_idx then
        some (OutSymbolSection.inSection cls.output_section_id)
      else none
  match sectionOk with
  | none => none
  | some outSection =>
    let st_info := input_sym.stInfo
    let st_other := input_sym.stOther
    let bind0 := st_info >>> 4
    let st_info1 :=
      if bind0 = STB_GNU_UNIQUE then (STB_GLOBAL <<< 4) ||| (st_info &&& 0xF)
      else st_info
    let bind1 := if bind0 = STB_GNU_UNIQUE then STB_GLOBAL else bind0
    let scope :=
      match input_sym.scope with
      | SymScope.unknown =>
        if bind1 = STB_LOCAL then SymScope.compilation else SymScope.linkage
      | SymScope.dynamic => SymScope.linkage
      | s => s
    some
      { nameBytes := input_sym.nameBytes
        value := input_sym.address
        size := input_sym.size
        kind := input_sym.kind
        scope := scope
        weak := input_sym.weak
        symSection := outSection
        flags := SymbolFlags.elf st_info1 st_other }

/-- The `continue` condition of the loop in `GenerateSymbolPass::run`: a
symbol is skipped when it has a defining section index and that section
was not copied into the output. -/
def shouldSkipSym (cls : CopyLodableSectionsOutput) (input_sym : InputSymbol) :
    Bool :=
  match sectionIndexOf input_sym with
  | some sym_section_idx => ! is_section_copied cls sym_section_idx
  | none => false

/-- The loop of `GenerateSymbolPass::run`: iterate the dynamic symbols;
skip a symbol whose defining section index exists but was not copied;
otherwise create the output symbol, append it to the output object
(`add_symbol` returns the position) and record
`(input index, output symbol id)` in insertion order. `none` models a
panic. -/
def genSymbolsLoop (cls : CopyLodableSectionsOutput) :
    List InputSymbol → OutputObject → List (Nat × Nat) →
      Option (OutputObject × List (Nat × Nat))
  | [], obj, entries => some (obj, entries)
  | input_sym :: rest, obj, entries =>
    if shouldSkipSym cls input_sym then genSymbolsLoop cls rest obj entries
    else
      match create_output_symbol cls input_sym with
      | some output_sym =>
        genSymbolsLoop cls rest
          { obj with symbols := obj.symbols ++ [output_sym] }
          (entries ++ [(input_sym.index, obj.symbols.length)])
      | none => none

/-- `GenerateSymbolPass::run` from `symbol.rs`. The produced list of
`(input symbol index, output symbol id)` pairs models the `HashMap`
insertion sequence. -/
def genSymbolsRun (cls : CopyLodableSectionsOutput) (input : ElfInput)
    (obj : OutputObject) : Option (OutputObject × List (Nat × Nat)) :=
  genSymbolsLoop cls input.dynSymbols obj []

/-- `SymbolMap::get_output_symbol` (a `HashMap` lookup; the recorded
input symbol indices are distinct in any well-formed input, so the first
match determines the entry). -/
def get_output_symbol (entries : List (Nat × Nat)) (input_sym : Nat) :
    Option Nat :=
  (entries.find? (fun e => e.1 == input_sym)).map (fun e => e.2)

/-! ## Relocation conversion pass (`src/elf/pass/reloc.rs`) -/

/-- `ConvertRelocationError` from `reloc.rs` (the `ReadElfError` case
cannot arise over an already-parsed input view). -/
inductive ConvertRelocationError where
  | unsupportedArch (arch : Arch)
  | unsupportedReloc (kind : RelocationKind)
deriving Repr, DecidableEq

/-- Outcome of running a pass body that may also panic. -/
inductive RunOutcome (α : Type) where
  | ok (a : α)
  | err (e : ConvertRelocationError)
  | panic
deriving Repr, DecidableEq

/-- The kind dispatch of
`ConvertRelocationPass::convert_x86_64_relocations` for a single dynamic
relocation that passed the address check.  `panic` models the `todo!()`
on a non-symbol target and the `unwrap` of a failed symbol-map lookup. -/
def convertOneReloc (cls : CopyLodableSectionsOutput)
    (sym_map : List (Nat × Nat)) (input_reloc_addr : Nat)
    (input_reloc : InputReloc) : RunOutcome OutReloc :=
  let output_reloc_offset := input_reloc_addr
  if input_reloc.kind = RelocationKind.elf R_X86_64_RELATIVE then
    RunOutcome.ok
      { offset := output_reloc_offset, size := 64,
        kind := RelocationKind.absolute,
        encoding := input_reloc.encoding,
        symbol := cls.output_section_symbol,
        addend := input_reloc.addend }
  else if input_reloc.kind = RelocationKind.absolute ∨
      input_reloc.kind = RelocationKind.elf R_X86_64_64 ∨
      input_reloc.kind = RelocationKind.elf R_X86_64_GLOB_DAT ∨
      input_reloc.kind = RelocationKind.elf R_X86_64_JUMP_SLOT then
    match input_reloc.target with
    | RelocationTarget.symbol target_sym_idx =>
      match get_output_symbol sym_map target_sym_idx with
      | some output_sym_id =>
        RunOutcome.ok
          { offset := output_reloc_offset, size := 64,
            kind := RelocationKind.absolute,
            encoding := input_reloc.encoding,
            symbol := output_sym_id,
            addend := input_reloc.addend }
      | none => RunOutcome.panic
    | _ => RunOutcome.panic
  else if input_reloc.kind = RelocationKind.elf R_X86_64_DTPMOD64 then
    RunOutcome.ok
      { offset := output_reloc_offset, size := 64,
        kind := RelocationKind.elf R_X86_64_DTPMOD64,
        encoding := input_reloc.encoding,
        symbol := cls.output_section_symbol,
        addend := input_reloc.addend }
  else RunOutcome.err (ConvertRelocationError.unsupportedReloc input_reloc.kind)

/-- The per-relocation loop of
`ConvertRelocationPass::convert_x86_64_relocations`: skip relocations at
addresses not below the CLS output section size; otherwise translate the
relocation and append it to the coalesced output section, stopping on an
error or a panic. -/
def convertRelocsLoop (cls : CopyLodableSectionsOutput)
    (sym_map : List (Nat × Nat)) :
    List (Nat × InputReloc) → OutputObject → RunOutcome OutputObject
  | [], obj => RunOutcome.ok obj
  | (input_reloc_addr, input_reloc) :: rest, obj =>
    if input_reloc_addr ≥ cls.output_section_size then
      convertRelocsLoop cls sym_map rest obj
    else
      match convertOneReloc cls sym_map input_reloc_addr input_reloc with
      | RunOutcome.ok output_reloc =>
        convertRelocsLoop cls sym_map rest
          { obj with relocs := obj.relocs ++ [(cls.output_section_id, output_reloc)] }
      | RunOutcome.err e => RunOutcome.err e
      | RunOutcome.panic => RunOutcome.panic

/-- `ConvertRelocationPass::convert_x86_64_relocations` from `reloc.rs`
(the input's dynamic relocation list plays the role of
`dynamic_relocations()`; an input without any dynamic relocation table
is modelled by the empty list, for which the loop trivially succeeds). -/
def convert_x86_64_relocations (cls : CopyLodableSectionsOutput)
    (sym_map : List (Nat × Nat)) (input : ElfInput) (obj : OutputObject) :
    RunOutcome OutputObject :=
  convertRelocsLoop cls sym_map input.dynRelocs obj

/-- `ConvertRelocationPass::run` from `reloc.rs`: dispatch on the input
architecture; only x86-64 is supported. -/
def convertRelocationRun (cls : CopyLodableSectionsOutput)
    (sym_map : List (Nat × Nat)) (input : ElfInput) (obj : OutputObject) :
    RunOutcome OutputObject :=
  match input.arch with
  | Arch.x86_64 => convert_x86_64_relocations cls sym_map input obj
  | arch => RunOutcome.err (ConvertRelocationError.unsupportedArch arch)

/-! ## Pass framework (`src/pass.rs`)

The type-erased output store (`Vec<Box<dyn Any>>`) is modelled by a list
over one value type `Val`; the `downcast_ref().unwrap()` of a slot that
was stored by the pass the handle refers to always succeeds, which is
exactly the situation the theorems below quantify over.  A pass reads
the shared input, the outputs of the earlier passes and the current
output object, and either returns its typed output together with the
updated output object, or fails with an error. -/

/-- A registered pass: its declared name and its `run` body. -/
structure PMPass (Inp Obj Val Err : Type) where
  name : String
  run : Inp → List Val → Obj → Except Err (Val × Obj)

/-- `RunPassError` from `pass.rs`: the failing pass's name together with
the error it produced. -/
structure RunPassError (Err : Type) where
  name : String
  error : Err
deriving Repr, DecidableEq

/-- `PassContext::get_pass_output`: index the output store with the
handle's index (`None` models the panicking `unwrap`). -/
def get_pass_output {Val : Type} (pass_outputs : List Val) (idx : Nat) :
    Option Val :=
  pass_outputs.get? idx

/-- The loop of `PassManager::run`: execute the passes in registration
order; on success append the produced output to the store, on failure
stop and wrap the error with the pass's name. -/
def runPasses {Inp Obj Val Err : Type} (inp : Inp) :
    List (PMPass Inp Obj Val Err) → List Val → Obj →
      Except (RunPassError Err) (List Val × Obj)
  | [], pass_outputs, obj => Except.ok (pass_outputs, obj)
  | p :: rest, pass_outputs, obj =>
    match p.run inp pass_outputs obj with
    | Except.ok (result, obj2) => runPasses inp rest (pass_outputs ++ [result]) obj2
    | Except.error err => Except.error { name := p.name, error := err }

/-- `PassManager::run` from `pass.rs`: run all registered passes on an
empty output store. -/
def passManagerRun {Inp Obj Val Err : Type}
    (passes : List (PMPass Inp Obj Val Err)) (inp : Inp) (obj : Obj) :
    Except (RunPassError Err) (List Val × Obj) :=
  runPasses inp passes [] obj

/-! ## Default output name (`convert_soname_to_object_name`, `src/main.rs`)

File names are modelled as lists of characters; case folding follows
the ASCII rule (the comparisons in the source are against the ASCII
literals `".so"` and `"lib"`). -/

/-- Lower-case a name character-wise (`str::to_lowercase`). -/
def lowerChars (s : List Char) : List Char :=
  s.map Char.toLower

/-- `convert_soname_to_object_name` from `main.rs`. -/
def convert_soname_to_object_name (soname : List Char) : List Char :=
  if soname.length < 3 then soname ++ ['.', 'o']
  else
    let file_name_wo_ext := soname.take (soname.length - 3)
    let ext_suffix := soname.drop (soname.length - 3)
    if lowerChars ext_suffix ≠ ['.', 's', 'o'] then soname ++ ['.', 'o']
    else
      let name_core :=
        if file_name_wo_ext.length ≥ 3 ∧
            lowerChars (file_name_wo_ext.take 3) = ['l', 'i', 'b'] then
          file_name_wo_ext.drop 3
        else file_name_wo_ext
      name_core ++ ['.', 'o']

/-- Whether `s` ends in `".so"` up to ASCII case. -/
def endsWithSo (s : List Char) : Prop :=
  3 ≤ s.length ∧ lowerChars (s.drop (s.length - 3)) = ['.', 's', 'o']

instance (s : List Char) : Decidable (endsWithSo s) := by
  unfold endsWithSo; infer_instance

/-- Whether `s` begins with `"lib"` up to ASCII case. -/
def beginsWithLib (s : List Char) : Prop :=
  3 ≤ s.length ∧ lowerChars (s.take 3) = ['l', 'i', 'b']

instance (s : List Char) : Decidable (beginsWithLib s) := by
  unfold beginsWithLib; infer_instance

/-- The default output file name as the specification words it: if the
name does not end in `".so"` (case-insensitive), append `".o"` and
stop; otherwise strip the `".so"` suffix, then strip a leading `"lib"`
prefix (case-insensitive) if present, then append `".o"`. -/
def specObjectName (soname : List Char) : List Char :=
  if endsWithSo soname then
    let stem := soname.take (soname.length - 3)
    let stem2 := if beginsWithLib stem then stem.drop 3 else stem
    stem2 ++ ['.', 'o']
  else soname ++ ['.', 'o']

/-! ## Derived notions used by the theorem statements -/

/-- The highest `addr + size` over a list of sections (what §4.2 step 5
of the specification calls the output section size). -/
def maxAddrEnd (secs : List InputSection) : Nat :=
  secs.foldr (fun sec m => max (sec.addr + sec.size) m) 0

/-- Whether a section-flags value includes a given ELF flag bit. -/
def sectionFlagsInclude (fl : SectionFlags) (bit : Nat) : Bool :=
  match fl with
  | SectionFlags.noneFl => false
  | SectionFlags.elf sh => decide (sh &&& bit ≠ 0)

/-- The relocation kinds the conversion pass translates (the table in
§4.4 of the specification). -/
def isSupportedRelocKind (k : RelocationKind) : Prop :=
  k = RelocationKind.elf R_X86_64_RELATIVE ∨
  k = RelocationKind.absolute ∨
  k = RelocationKind.elf R_X86_64_64 ∨
  k = RelocationKind.elf R_X86_64_GLOB_DAT ∨
  k = RelocationKind.elf R_X86_64_JUMP_SLOT ∨
  k = RelocationKind.elf R_X86_64_DTPMOD64

instance (k : RelocationKind) : Decidable (isSupportedRelocKind k) := by
  unfold isSupportedRelocKind; infer_instance

/-- The relocation kinds whose translation goes through the symbol map
(`R_X86_64_64`, `R_X86_64_GLOB_DAT`, `R_X86_64_JUMP_SLOT`, generic
absolute). -/
def isSymbolicRelocKind (k : RelocationKind) : Prop :=
  k = RelocationKind.absolute ∨
  k = RelocationKind.elf R_X86_64_64 ∨
  k = RelocationKind.elf R_X86_64_GLOB_DAT ∨
  k = RelocationKind.elf R_X86_64_JUMP_SLOT

instance (k : RelocationKind) : Decidable (isSymbolicRelocKind k) := by
  unfold isSymbolicRelocKind; infer_instance

/-! ## Concrete fixture inputs used by counterexamples and witnesses -/

/-- A minimal input section with the given index, address and size. -/
def mkSection (idx addr sz : Nat) : InputSection :=
  { index := idx, addr := addr, size := sz, align := 1,
    shFlags := SHF_ALLOC, data := [], nameBytes := [] }

/-- A `PT_LOAD` program header with the given address and size. -/
def mkLoadSegment (addr sz : Nat) : Segment :=
  { pType := PT_LOAD, addr := addr, size := sz }

/-- A fallback CLS output used by extraction functions. -/
def defaultCls : CopyLodableSectionsOutput :=
  { output_section_id := 0, output_section_symbol := 0,
    output_section_size := 0, section_maps := [] }

/-- A defined dynamic symbol with **local** binding (`st_info >> 4 = 0`)
and default visibility, defined in section 1. -/
def exSymLocal : InputSymbol :=
  { index := 1, nameBytes := [0x61], address := 0x10, size := 4, kind := 0,
    stInfo := 0x01, stOther := 0, scope := SymScope.dynamic, weak := false,
    symSection := SymSection.inSection 1 }

/-- Input for the C1 counterexample: one loadable section, one defined
local-binding dynamic symbol in it. -/
def exInputC1 : ElfInput :=
  { arch := Arch.x86_64, segments := [mkLoadSegment 0x10 0x20],
    sections := [mkSection 1 0x10 0x10], dynSymbols := [exSymLocal],
    dynRelocs := [] }

def exClsC1 : CopyLodableSectionsOutput :=
  match clsRun OutputObject.empty exInputC1 with
  | some (_, cls) => cls
  | none => defaultCls

def exObjC1 : OutputObject :=
  match clsRun OutputObject.empty exInputC1 with
  | some (obj, _) => obj
  | none => OutputObject.empty

def exObjSymC1 : OutputObject :=
  match genSymbolsRun exClsC1 exInputC1 exObjC1 with
  | some (obj, _) => obj
  | none => OutputObject.empty

def exEntriesC1 : List (Nat × Nat) :=
  match genSymbolsRun exClsC1 exInputC1 exObjC1 with
  | some (_, entries) => entries
  | none => []

/-- Input for the C2 counterexample: two retained sections where the one
with the smaller address has the larger end (`[0x10, 0x110)` versus
`[0x20, 0x28)`), both with empty data. -/
def exInputC2 : ElfInput :=
  { arch := Arch.x86_64, segments := [mkLoadSegment 0x10 0x110],
    sections := [mkSection 1 0x10 0x100, mkSection 2 0x20 0x8],
    dynSymbols := [], dynRelocs := [] }

def exSizeC2 : Nat :=
  match clsRun OutputObject.empty exInputC2 with
  | some (_, cls) => cls.output_section_size
  | none => 0

/-- Input for the C3 counterexample: two identical (hence overlapping)
`PT_LOAD` segments both containing section 1. -/
def exInputC3 : ElfInput :=
  { arch := Arch.x86_64,
    segments := [mkLoadSegment 0x10 0x10, mkLoadSegment 0x10 0x10],
    sections := [mkSection 1 0x10 0x10], dynSymbols := [], dynRelocs := [] }

def exMapsC3 : List SectionMap :=
  match clsRun OutputObject.empty exInputC3 with
  | some (_, cls) => cls.section_maps
  | none => []

/-- A dynamic relocation of kind `R_X86_64_RELATIVE` (no symbol). -/
def exRelocC4 : InputReloc :=
  { kind := RelocationKind.elf R_X86_64_RELATIVE,
    target := RelocationTarget.absolute, addend := 3, size := 64,
    encoding := 0 }

/-- Input for the C4 counterexample: the only retained range is
`[0x10, 0x20)`; the dynamic relocation sits at address `0x5`, below
every retained range but inside `[0, output_section_size)`. -/
def exInputC4 : ElfInput :=
  { arch := Arch.x86_64, segments := [mkLoadSegment 0x10 0x20],
    sections := [mkSection 1 0x10 0x10], dynSymbols := [],
    dynRelocs := [(0x5, exRelocC4)] }

def exClsC4 : CopyLodableSectionsOutput :=
  match clsRun OutputObject.empty exInputC4 with
  | some (_, cls) => cls
  | none => defaultCls

def exObjC4 : OutputObject :=
  match clsRun OutputObject.empty exInputC4 with
  | some (obj, _) => obj
  | none => OutputObject.empty

def exObjRelC4 : OutputObject :=
  match convertRelocationRun exClsC4 [] exInputC4 exObjC4 with
  | RunOutcome.ok obj => obj
  | _ => OutputObject.empty

def exRelocsOutC4 : List (Nat × OutReloc) :=
  match clsRun OutputObject.empty exInputC4 with
  | some (obj1, cls) =>
    match genSymbolsRun cls exInputC4 obj1 with
    | some (obj2, entries) =>
      match convertRelocationRun cls entries exInputC4 obj2 with
      | RunOutcome.ok obj3 => obj3.relocs
      | _ => []
    | none => []
  | none => []

/-- Input for the C5 counterexample: no `PT_LOAD` segment at all, so no
retained loadable section. -/
def exInputC5 : ElfInput :=
  { arch := Arch.x86_64, segments := [], sections := [mkSection 1 0x10 0x10],
    dynSymbols := [], dynRelocs := [] }

def exFlagsC5 : SectionFlags :=
  match clsRun OutputObject.empty exInputC5 with
  | some (obj, cls) =>
    match obj.sections.get? cls.output_section_id with
    | some sec => sec.flags
    | none => SectionFlags.elf 0xFFFF
  | none => SectionFlags.elf 0xFFFF

/-- Input for the C6 architecture-gate witness: an AArch64 input. -/
def exInputC6a : ElfInput :=
  { arch := Arch.aarch64, segments := [], sections := [],
    dynSymbols := [], dynRelocs := [] }

/-- A dynamic relocation of an unsupported kind. -/
def exRelocC6 : InputReloc :=
  { kind := RelocationKind.elf 99, target := RelocationTarget.absolute,
    addend := 0, size := 64, encoding := 0 }

/-- Input for the C6 unsupported-kind witness. -/
def exInputC6b : ElfInput :=
  { arch := Arch.x86_64, segments := [mkLoadSegment 0x10 0x20],
    sections := [mkSection 1 0x10 0x10], dynSymbols := [],
    dynRelocs := [(0x10, exRelocC6)] }

def exClsC6 : CopyLodableSectionsOutput :=
  match clsRun OutputObject.empty exInputC6b with
  | some (_, cls) => cls
  | none => defaultCls

def exObjC6 : OutputObject :=
  match clsRun OutputObject.empty exInputC6b with
  | some (obj, _) => obj
  | none => OutputObject.empty

/-- A defined dynamic symbol living in section 2, which is **not**
retained (its address is 0). -/
def exSymSkippedC7 : InputSymbol :=
  { index := 5, nameBytes := [0x66], address := 0, size := 0, kind := 0,
    stInfo := 0x12, stOther := 0, scope := SymScope.dynamic, weak := false,
    symSection := SymSection.inSection 2 }

/-- A symbolic relocation (`R_X86_64_64`) targeting symbol 5. -/
def exRelocC7 : InputReloc :=
  { kind := RelocationKind.elf R_X86_64_64,
    target := RelocationTarget.symbol 5, addend := 0, size := 64,
    encoding := 0 }

/-- Input for the C7 witness: the relocation at address `0x10` is in
range, but its target symbol 5 is skipped by the symbol pass because its
defining section 2 is not retained, so the symbol map has no entry. -/
def exInputC7 : ElfInput :=
  { arch := Arch.x86_64, segments := [mkLoadSegment 0x10 0x20],
    sections := [mkSection 1 0x10 0x10, mkSection 2 0 0x8],
    dynSymbols := [exSymSkippedC7], dynRelocs := [(0x10, exRelocC7)] }

def exClsC7 : CopyLodableSectionsOutput :=
  match clsRun OutputObject.empty exInputC7 with
  | some (_, cls) => cls
  | none => defaultCls

def exObjC7 : OutputObject :=
  match clsRun OutputObject.empty exInputC7 with
  | some (obj, _) => obj
  | none => OutputObject.empty

def exObjSymC7 : OutputObject :=
  match genSymbolsRun exClsC7 exInputC7 exObjC7 with
  | some (obj, _) => obj
  | none => OutputObject.empty

def exMapC7 : List (Nat × Nat) :=
  match genSymbolsRun exClsC7 exInputC7 exObjC7 with
  | some (_, entries) => entries
  | none => []

/-- An undefined dynamic symbol named `"foo"`. -/
def exSymUndefC8 : InputSymbol :=
  { index := 3, nameBytes := [0x66, 0x6f, 0x6f], address := 0, size := 0,
    kind := 0, stInfo := 0x10, stOther := 0, scope := SymScope.dynamic,
    weak := false, symSection := SymSection.undefined }

/-- Input for the C8 witness: one undefined dynamic symbol. -/
def exInputC8 : ElfInput :=
  { arch := Arch.x86_64, segments := [mkLoadSegment 0x10 0x20],
    sections := [mkSection 1 0x10 0x10], dynSymbols := [exSymUndefC8],
    dynRelocs := [] }

def exObjSymC8 : OutputObject :=
  match genSymbolsRun defaultCls exInputC8 OutputObject.empty with
  | some (obj, _) => obj
  | none => OutputObject.empty

def exEntriesC8 : List (Nat × Nat) :=
  match genSymbolsRun defaultCls exInputC8 OutputObject.empty with
  | some (_, entries) => entries
  | none => []

/-- A two-pass pipeline over `Nat` values for the C9 witness. -/
def exPassA : PMPass Nat Nat Nat Unit :=
  { name := "a", run := fun _ _ obj => Except.ok (42, obj + 1) }

def exPassB : PMPass Nat Nat Nat Unit :=
  { name := "b", run := fun _ _ obj => Except.ok (7, obj) }

/-! ## Theorems -/

/-- **C10.** For every input file name, the default output file name is
computed as: if the name does not end in `".so"` (case-insensitive),
append `".o"` and stop; otherwise strip the `".so"` suffix, then strip a
leading `"lib"` prefix (case-insensitive) if present, then append
`".o"`; in particular `"libxyz.so"` maps to `"xyz.o"`, `"xyz.so"` to
`"xyz.o"`, and `"xyz"` to `"xyz.o"`. -/
theorem C10_default_output_name :
    (∀ s : List Char, convert_soname_to_object_name s = specObjectName s) ∧
    convert_soname_to_object_name "libxyz.so".toList = "xyz.o".toList ∧
    convert_soname_to_object_name "xyz.so".toList = "xyz.o".toList ∧
    convert_soname_to_object_name "xyz".toList = "xyz.o".toList := by
  refine ⟨fun s => ?_, by decide, by decide, by decide⟩
  unfold convert_soname_to_object_name specObjectName
  by_cases h3 : s.length < 3
  · have hns : ¬ endsWithSo s := by
      intro h
      exact absurd h.1 (by omega)
    simp only [if_pos h3, if_neg hns]
  · have h3' : 3 ≤ s.length := by omega
    by_cases hext : lowerChars (s.drop (s.length - 3)) = ['.', 's', 'o']
    · have hso : endsWithSo s := ⟨h3', hext⟩
      simp only [if_neg h3, if_pos hso, if_neg (not_not_intro hext)]
      by_cases hlib : beginsWithLib (s.take (s.length - 3))
      · have hc : (s.take (s.length - 3)).length ≥ 3 ∧
            lowerChars ((s.take (s.length - 3)).take 3) = ['l', 'i', 'b'] := hlib
        simp only [if_pos hc, if_pos hlib]
      · have hc : ¬ ((s.take (s.length - 3)).length ≥ 3 ∧
            lowerChars ((s.take (s.length - 3)).take 3) = ['l', 'i', 'b']) := hlib
        simp only [if_neg hc, if_neg hlib]
    · have hns : ¬ endsWithSo s := by
        intro h
        exact hext h.2
      simp only [if_neg h3, if_neg hns, if_pos hext]

/-! ### Pass framework lemmas -/

theorem take_add_eq {α : Type} (l : List α) (m n : Nat) :
    l.take (m + n) = l.take m ++ (l.drop m).take n := by
  induction l generalizing m with
  | nil => simp
  | cons a t ih =>
    cases m with
    | zero => simp
    | succ m' =>
      rw [Nat.succ_add]
      simp only [List.take_succ_cons, List.drop_succ_cons, List.cons_append,
        List.cons.injEq, true_and]
      exact ih m'

theorem runPasses_ok_append {Inp Obj Val Err : Type} (inp : Inp)
    (l1 l2 : List (PMPass Inp Obj Val Err)) (outs : List Val) (obj : Obj)
    (outs1 : List Val) (obj1 : Obj)
    (h : runPasses inp l1 outs obj = Except.ok (outs1, obj1)) :
    runPasses inp (l1 ++ l2) outs obj = runPasses inp l2 outs1 obj1 := by
  induction l1 generalizing outs obj with
  | nil =>
    simp only [runPasses, Except.ok.injEq, Prod.mk.injEq] at h
    rw [List.nil_append, h.1, h.2]
  | cons p rest ih =>
    simp only [List.cons_append, runPasses] at h ⊢
    cases hp : p.run inp outs obj with
    | ok r =>
      rw [hp] at h
      exact ih _ _ h
    | error e =>
      rw [hp] at h
      exact absurd h (by simp)

theorem runPasses_append_ok_inv {Inp Obj Val Err : Type} (inp : Inp)
    (l1 l2 : List (PMPass Inp Obj Val Err)) (outs : List Val) (obj : Obj)
    (outs2 : List Val) (obj2 : Obj)
    (h : runPasses inp (l1 ++ l2) outs obj = Except.ok (outs2, obj2)) :
    ∃ outs1 obj1, runPasses inp l1 outs obj = Except.ok (outs1, obj1) ∧
      runPasses inp l2 outs1 obj1 = Except.ok (outs2, obj2) := by
  induction l1 generalizing outs obj with
  | nil =>
    exact ⟨outs, obj, rfl, by simpa using h⟩
  | cons p rest ih =>
    simp only [List.cons_append, runPasses] at h ⊢
    cases hp : p.run inp outs obj with
    | ok r =>
      rw [hp] at h
      exact ih _ _ h
    | error e =>
      rw [hp] at h
      exact absurd h (by simp)

theorem runPasses_ok_extend {Inp Obj Val Err : Type} (inp : Inp)
    (l : List (PMPass Inp Obj Val Err)) (outs : List Val) (obj : Obj)
    (outs' : List Val) (obj' : Obj)
    (h : runPasses inp l outs obj = Except.ok (outs', obj')) :
    ∃ extra, outs' = outs ++ extra ∧ extra.length = l.length := by
  induction l generalizing outs obj with
  | nil =>
    simp only [runPasses, Except.ok.injEq, Prod.mk.injEq] at h
    exact ⟨[], by simp [h.1.symm], rfl⟩
  | cons p rest ih =>
    simp only [runPasses] at h
    cases hp : p.run inp outs obj with
    | ok r =>
      rw [hp] at h
      obtain ⟨extra, he, hl⟩ := ih _ _ h
      exact ⟨r.1 :: extra, by simpa using he, by simpa using hl⟩
    | error e =>
      rw [hp] at h
      exact absurd h (by simp)

/-- **C9.** For every pass registered with the pass manager, with `i`
the handle index returned by that registration: when a later pass (the
`k`-th, `i < k`) executes, the output store holds, at position `i`,
exactly the value that the `i`-th pass's `run` method returned. -/
theorem C9_pass_output_roundtrip {Inp Obj Val Err : Type}
    (passes : List (PMPass Inp Obj Val Err)) (inp : Inp) (obj : Obj)
    (i k : Nat) (hik : i < k) (hk : k ≤ passes.length)
    (outs : List Val) (objk : Obj)
    (hrun : runPasses inp (passes.take k) [] obj = Except.ok (outs, objk)) :
    ∃ (p : PMPass Inp Obj Val Err) (outs_i : List Val) (obj_i : Obj)
      (v : Val) (obj' : Obj),
      passes.get? i = some p ∧
      runPasses inp (passes.take i) [] obj = Except.ok (outs_i, obj_i) ∧
      p.run inp outs_i obj_i = Except.ok (v, obj') ∧
      get_pass_output outs i = some v := by
  have hi : i < passes.length := Nat.lt_of_lt_of_le hik hk
  have hksplit : (i + 1) + (k - (i + 1)) = k := by omega
  have htk : passes.take ((i + 1) + (k - (i + 1))) =
      passes.take (i + 1) ++ (passes.drop (i + 1)).take (k - (i + 1)) :=
    take_add_eq _ _ _
  rw [hksplit] at htk
  rw [htk] at hrun
  obtain ⟨outs1, obj1, h1, h2⟩ := runPasses_append_ok_inv _ _ _ _ _ _ _ hrun
  have hget : passes.get? i = some passes[i] := by
    rw [List.get?_eq_getElem?]
    exact List.getElem?_eq_getElem hi
  have hts : passes.take (i + 1) = passes.take i ++ [passes[i]] := by
    rw [List.take_succ, List.getElem?_eq_getElem hi]
    rfl
  rw [hts] at h1
  obtain ⟨outs_i, obj_i, hpre, hstep⟩ := runPasses_append_ok_inv _ _ _ _ _ _ _ h1
  have hleni : outs_i.length = i := by
    obtain ⟨extra, he, hl⟩ := runPasses_ok_extend _ _ _ _ _ _ hpre
    have : (passes.take i).length = i := by
      simpa using Nat.min_eq_left (Nat.le_of_lt hi)
    simp [he, hl, this]
  simp only [runPasses] at hstep
  cases hp : (passes[i]).run inp outs_i obj_i with
  | ok r =>
    rw [hp] at hstep
    simp only [Except.ok.injEq, Prod.mk.injEq] at hstep
    obtain ⟨extra2, he2, _⟩ := runPasses_ok_extend _ _ _ _ _ _ h2
    refine ⟨passes[i], outs_i, obj_i, r.1, r.2, hget, hpre, by
      simpa using hp, ?_⟩
    have houts : outs = outs_i ++ [r.1] ++ extra2 := by
      rw [he2, ← hstep.1]
    rw [houts]
    unfold get_pass_output
    rw [List.append_assoc]
    have h1' : outs_i.length ≤ i := Nat.le_of_eq hleni
    rw [List.get?_eq_getElem?, List.getElem?_append_right h1', hleni]
    simp
  | error e =>
    rw [hp] at hstep
    exact absurd hstep (by simp)

/-- Witness for C9 at a concrete two-pass pipeline. -/
theorem C9_pass_output_roundtrip_witness :
    ∃ (p : PMPass Nat Nat Nat Unit) (outs_i : List Nat) (obj_i : Nat)
      (v : Nat) (obj' : Nat),
      [exPassA, exPassB].get? 0 = some p ∧
      runPasses 5 ([exPassA, exPassB].take 0) [] 0 = Except.ok (outs_i, obj_i) ∧
      p.run 5 outs_i obj_i = Except.ok (v, obj') ∧
      get_pass_output [42] 0 = some v := by
  exact C9_pass_output_roundtrip [exPassA, exPassB] 5 0 0 1 (by decide)
    (by decide) [42] 1 rfl

/-! ### Symbol synthesis lemmas -/

theorem genSymbolsLoop_mono (cls : CopyLodableSectionsOutput)
    (syms : List InputSymbol) (obj : OutputObject) (entries : List (Nat × Nat))
    (obj' : OutputObject) (entries' : List (Nat × Nat))
    (h : genSymbolsLoop cls syms obj entries = some (obj', entries')) :
    ∃ es ps, obj'.symbols = obj.symbols ++ es ∧ entries' = entries ++ ps := by
  induction syms generalizing obj entries with
  | nil =>
    simp only [genSymbolsLoop, Option.some.injEq, Prod.mk.injEq] at h
    exact ⟨[], [], by simp [h.1.symm], by simp [h.2.symm]⟩
  | cons a rest ih =>
    simp only [genSymbolsLoop] at h
    by_cases hs : shouldSkipSym cls a
    · rw [if_pos hs] at h
      exact ih _ _ h
    · rw [if_neg hs] at h
      cases hc : create_output_symbol cls a with
      | none => rw [hc] at h; exact absurd h (by simp)
      | some out0 =>
        rw [hc] at h
        obtain ⟨es, ps, he, hp⟩ := ih _ _ h
        exact ⟨out0 :: es, (a.index, obj.symbols.length) :: ps,
          by simpa using he, by simpa using hp⟩

theorem genSymbolsLoop_emits (cls : CopyLodableSectionsOutput)
    (syms : List InputSymbol) (obj : OutputObject) (entries : List (Nat × Nat))
    (obj' : OutputObject) (entries' : List (Nat × Nat))
    (h : genSymbolsLoop cls syms obj entries = some (obj', entries'))
    (sym : InputSymbol) (hmem : sym ∈ syms)
    (hskip : shouldSkipSym cls sym = false) :
    ∃ id out, (sym.index, id) ∈ entries' ∧ obj'.symbols.get? id = some out ∧
      create_output_symbol cls sym = some out := by
  induction syms generalizing obj entries with
  | nil => cases hmem
  | cons a rest ih =>
    simp only [genSymbolsLoop] at h
    by_cases hs : shouldSkipSym cls a
    · rw [if_pos hs] at h
      rcases List.mem_cons.mp hmem with rfl | hm
      · rw [hskip] at hs; cases hs
      · exact ih _ _ h hm
    · rw [if_neg hs] at h
      cases hc : create_output_symbol cls a with
      | none => rw [hc] at h; exact absurd h (by simp)
      | some out0 =>
        rw [hc] at h
        rcases List.mem_cons.mp hmem with rfl | hm
        · obtain ⟨es, ps, he, hp⟩ := genSymbolsLoop_mono _ _ _ _ _ _ h
          refine ⟨obj.symbols.length, out0, ?_, ?_, hc⟩
          · rw [hp]
            simp
          · rw [he]
            simp only [List.append_assoc, List.singleton_append]
            rw [List.get?_eq_getElem?,
              List.getElem?_append_right (Nat.le_refl _)]
            simp
        · exact ih _ _ h hm

theorem genSymbolsLoop_key_source (cls : CopyLodableSectionsOutput)
    (syms : List InputSymbol) (obj : OutputObject) (entries : List (Nat × Nat))
    (obj' : OutputObject) (entries' : List (Nat × Nat))
    (h : genSymbolsLoop cls syms obj entries = some (obj', entries'))
    (key id : Nat) (hmem : (key, id) ∈ entries') :
    (key, id) ∈ entries ∨
      ∃ s, s ∈ syms ∧ s.index = key ∧ shouldSkipSym cls s = false := by
  induction syms generalizing obj entries with
  | nil =>
    simp only [genSymbolsLoop, Option.some.injEq, Prod.mk.injEq] at h
    exact Or.inl (h.2 ▸ hmem)
  | cons a rest ih =>
    simp only [genSymbolsLoop] at h
    by_cases hs : shouldSkipSym cls a
    · rw [if_pos hs] at h
      rcases ih _ _ h with hin | ⟨s, hsmem, hkey, hsk⟩
      · exact Or.inl hin
      · exact Or.inr ⟨s, List.mem_cons_of_mem _ hsmem, hkey, hsk⟩
    · rw [if_neg hs] at h
      cases hc : create_output_symbol cls a with
      | none => rw [hc] at h; exact absurd h (by simp)
      | some out0 =>
        rw [hc] at h
        rcases ih _ _ h with hin | ⟨s, hsmem, hkey, hsk⟩
        · rcases List.mem_append.mp hin with hin' | hin'
          · exact Or.inl hin'
          · have : key = a.index := by
              simpa using congrArg Prod.fst (List.mem_singleton.mp hin')
            exact Or.inr ⟨a, List.mem_cons_self _ _, this.symm,
              Bool.of_not_eq_true hs⟩
        · exact Or.inr ⟨s, List.mem_cons_of_mem _ hsmem, hkey, hsk⟩

theorem mem_eq_of_key_eq {α : Type} (key : α → Nat) {l : List α}
    (hnodup : l.Pairwise (fun a b => key a ≠ key b))
    {a b : α} (ha : a ∈ l) (hb : b ∈ l)
    (hab : key a = key b) : a = b := by
  induction l with
  | nil => cases ha
  | cons x t ih =>
    rcases List.pairwise_cons.mp hnodup with ⟨hx, ht⟩
    rcases List.mem_cons.mp ha with rfl | ha'
    · rcases List.mem_cons.mp hb with rfl | hb'
      · rfl
      · exact absurd hab (hx b hb')
    · rcases List.mem_cons.mp hb with rfl | hb'
      · exact absurd hab.symm (hx a ha')
      · exact ih ht ha' hb'

/-! ### Claim C1 -/

/-- **C1 counterexample.** `exSymLocal` is a *defined* dynamic symbol
with **local** binding (`st_info >> 4 = STB_LOCAL`) whose defining
section 1 is retained; the claim says no output symbol is emitted and no
symbol-map entry is recorded for it, yet the symbol pass records the
entry `(1, 1)` (and emits output symbol 1). -/
theorem C1_counterexample :
    exSymLocal.symSection = SymSection.inSection 1 ∧
    exSymLocal.stInfo >>> 4 = STB_LOCAL ∧
    (clsRun OutputObject.empty exInputC1).isSome = true ∧
    is_section_copied exClsC1 1 = true ∧
    exEntriesC1 = [(1, 1)] := by
  refine ⟨rfl, by decide, by decide, by decide, by decide⟩

/-- **C1 (amended).** A defined dynamic input symbol with defining
section `idx` produces an entry in the symbol map if and only if its
defining section was retained by the section coalescing pass; binding
and visibility are not consulted. -/
theorem C1_defined_symbol_selection (cls : CopyLodableSectionsOutput)
    (input : ElfInput) (obj obj' : OutputObject) (entries : List (Nat × Nat))
    (sym : InputSymbol) (idx : Nat)
    (hrun : genSymbolsRun cls input obj = some (obj', entries))
    (hnodup : input.dynSymbols.Pairwise (fun a b => a.index ≠ b.index))
    (hmem : sym ∈ input.dynSymbols)
    (hdef : sym.symSection = SymSection.inSection idx) :
    (∃ id, (sym.index, id) ∈ entries) ↔ is_section_copied cls idx = true := by
  have hsi : sectionIndexOf sym = some idx := by
    unfold sectionIndexOf
    rw [hdef]
  constructor
  · rintro ⟨id, hid⟩
    rcases genSymbolsLoop_key_source _ _ _ _ _ _ hrun _ _ hid with hin | hsrc
    · cases hin
    · obtain ⟨s, hsmem, hkey, hsk⟩ := hsrc
      have : s = sym := mem_eq_of_key_eq InputSymbol.index hnodup hsmem hmem hkey
      subst this
      unfold shouldSkipSym at hsk
      rw [hsi] at hsk
      simpa using hsk
  · intro hcopied
    have hskip : shouldSkipSym cls sym = false := by
      unfold shouldSkipSym
      rw [hsi]
      simp [hcopied]
    obtain ⟨id, out, hid, _, _⟩ :=
      genSymbolsLoop_emits _ _ _ _ _ _ hrun sym hmem hskip
    exact ⟨id, hid⟩

/-- Witness for the amended C1 at the concrete input `exInputC1`. -/
theorem C1_defined_symbol_selection_witness :
    (∃ id, (exSymLocal.index, id) ∈ exEntriesC1) ↔
      is_section_copied exClsC1 1 = true := by
  exact C1_defined_symbol_selection exClsC1 exInputC1 exObjC1 exObjSymC1
    exEntriesC1 exSymLocal 1 (by decide) (by simp [exInputC1]) (by decide) rfl

/-! ### Claim C8 -/

/-- **C8.** For every undefined dynamic symbol of the input, the symbol
synthesis pass emits an output symbol whose section is `Undefined` and
whose name bytes equal the input symbol's name bytes, and records an
entry for that input symbol index in the returned symbol map. -/
theorem C8_undefined_symbols (cls : CopyLodableSectionsOutput)
    (input : ElfInput) (obj obj' : OutputObject) (entries : List (Nat × Nat))
    (sym : InputSymbol)
    (hrun : genSymbolsRun cls input obj = some (obj', entries))
    (hmem : sym ∈ input.dynSymbols)
    (hund : sym.symSection = SymSection.undefined) :
    ∃ id out, (sym.index, id) ∈ entries ∧ obj'.symbols.get? id = some out ∧
      out.symSection = OutSymbolSection.undefined ∧
      out.nameBytes = sym.nameBytes := by
  have hskip : shouldSkipSym cls sym = false := by
    unfold shouldSkipSym sectionIndexOf
    rw [hund]
  obtain ⟨id, out, hid, hget, hc⟩ :=
    genSymbolsLoop_emits _ _ _ _ _ _ hrun sym hmem hskip
  refine ⟨id, out, hid, hget, ?_, ?_⟩
  · unfold create_output_symbol at hc
    rw [hund] at hc
    simp only [Option.some.injEq] at hc
    rw [← hc]
  · unfold create_output_symbol at hc
    rw [hund] at hc
    simp only [Option.some.injEq] at hc
    rw [← hc]

/-- Witness for C8 at the concrete input `exInputC8`. -/
theorem C8_undefined_symbols_witness :
    ∃ id out, (exSymUndefC8.index, id) ∈ exEntriesC8 ∧
      exObjSymC8.symbols.get? id = some out ∧
      out.symSection = OutSymbolSection.undefined ∧
      out.nameBytes = exSymUndefC8.nameBytes := by
  exact C8_undefined_symbols defaultCls exInputC8 OutputObject.empty
    exObjSymC8 exEntriesC8 exSymUndefC8 (by decide) (by decide) rfl

/-! ### Section coalescing lemmas -/

theorem insertStable_perm {α : Type} (le : α → α → Bool) (a : α)
    (l : List α) : List.Perm (insertStable le a l) (a :: l) := by
  induction l with
  | nil => exact List.Perm.refl _
  | cons b t ih =>
    unfold insertStable
    by_cases h : le b a
    · rw [if_pos h]
      exact (ih.cons b).trans (List.Perm.swap a b t)
    · rw [if_neg h]

theorem foldl_insertStable_perm {α : Type} (le : α → α → Bool) :
    ∀ (l acc : List α),
      List.Perm (l.foldl (fun acc a => insertStable le a acc) acc)
        (acc ++ l) := by
  intro l
  induction l with
  | nil => intro acc; simp
  | cons a t ih =>
    intro acc
    simp only [List.foldl_cons]
    have h1 : List.Perm (t.foldl (fun acc a => insertStable le a acc)
        (insertStable le a acc)) (insertStable le a acc ++ t) := ih _
    have h2 : List.Perm (insertStable le a acc ++ t) ((a :: acc) ++ t) :=
      (insertStable_perm le a acc).append_right t
    have h3 : List.Perm ((a :: acc) ++ t) (acc ++ a :: t) := by
      have := @List.perm_middle _ a acc t
      exact this.symm
    exact (h1.trans h2).trans h3

theorem sortStable_perm {α : Type} (le : α → α → Bool) (l : List α) :
    List.Perm (sortStable le l) l := by
  have := foldl_insertStable_perm le l []
  simpa [sortStable] using this

theorem clsRun_some_maps (obj : OutputObject) (input : ElfInput)
    (obj' : OutputObject) (cls : CopyLodableSectionsOutput)
    (h : clsRun obj input = some (obj', cls)) :
    cls.section_maps = (collect_loadable_sections input).map
      (fun sec => { index := sec.index,
                    addrRange := (sec.addr, sec.addr + sec.size) }) := by
  simp only [clsRun] at h
  split at h
  · simp only [Option.some.injEq, Prod.mk.injEq] at h
    obtain ⟨_, hcls⟩ := h
    rw [← hcls]
    have he : (collect_loadable_sections input).isEmpty = true := by assumption
    rw [List.isEmpty_iff.mp he]
    rfl
  · split at h
    · simp only [Option.some.injEq, Prod.mk.injEq] at h
      obtain ⟨_, hcls⟩ := h
      rw [← hcls]
    · cases h

theorem clsRun_nonempty_inv (obj : OutputObject) (input : ElfInput)
    (obj' : OutputObject) (cls : CopyLodableSectionsOutput)
    (h : clsRun obj input = some (obj', cls))
    (hne : (collect_loadable_sections input).isEmpty = false) :
    ∃ buffer,
      copySections (collect_loadable_sections input)
        (List.replicate (computeOutputSize (collect_loadable_sections input)) 0)
        = some buffer ∧
      cls.output_section_id = obj.sections.length ∧
      cls.output_section_size =
        computeOutputSize (collect_loadable_sections input) ∧
      obj'.sections.get? cls.output_section_id = some
        { sodaInitSection with
            flags := get_output_section_flags (collect_loadable_sections input),
            data := buffer,
            align := (collect_loadable_sections input).foldl
              (fun m sec => max m sec.align) 0 } := by
  simp only [clsRun] at h
  split at h
  · rename_i he
    rw [hne] at he
    cases he
  · split at h
    · rename_i buffer hcopy
      simp only [Option.some.injEq, Prod.mk.injEq] at h
      obtain ⟨hobj, hcls⟩ := h
      refine ⟨buffer, hcopy, ?_, ?_, ?_⟩
      · rw [← hcls]
      · rw [← hcls]
      · rw [← hcls, ← hobj]
        have hlen : obj.sections.length <
            (obj.sections ++ [sodaInitSection]).length := by
          simp
        rw [List.get?_eq_getElem?]
        exact List.getElem?_set_self hlen
    · cases h

theorem writeAt_length (buf : List Nat) (addr : Nat) (data r : List Nat)
    (h : writeAt buf addr data = some r) : r.length = buf.length := by
  unfold writeAt at h
  split at h
  · simp only [Option.some.injEq] at h
    rw [← h]
  · split at h
    · rename_i hle
      simp only [Option.some.injEq] at h
      rw [← h]
      simp only [List.length_append, List.length_take, List.length_drop]
      omega
    · cases h

theorem writeAt_get_outside (buf : List Nat) (addr : Nat) (data r : List Nat)
    (h : writeAt buf addr data = some r) (i : Nat)
    (hout : i < addr ∨ addr + data.length ≤ i) :
    r.get? i = buf.get? i := by
  unfold writeAt at h
  split at h
  · simp only [Option.some.injEq] at h
    rw [← h]
  · split at h
    · rename_i hle
      simp only [Option.some.injEq] at h
      rw [← h]
      rw [List.get?_eq_getElem?, List.get?_eq_getElem?]
      rcases hout with hlt | hge
      · have htl : i < (buf.take addr).length := by
          simp only [List.length_take]
          omega
        have h1 : i < (buf.take addr ++ data).length := by
          simp only [List.length_append, List.length_take]
          omega
        rw [List.getElem?_append_left h1, List.getElem?_append_left htl,
          List.getElem?_take_of_lt hlt]
      · have hl1 : (buf.take addr ++ data).length = addr + data.length := by
          simp only [List.length_append, List.length_take]
          omega
        rw [List.getElem?_append_right (by rw [hl1]; exact hge),
          List.getElem?_drop]
        congr 1
        rw [hl1]
        omega
    · cases h

theorem copySections_length (secs : List InputSection) (buf buf' : List Nat)
    (h : copySections secs buf = some buf') : buf'.length = buf.length := by
  induction secs generalizing buf with
  | nil =>
    simp only [copySections, Option.some.injEq] at h
    rw [← h]
  | cons sec rest ih =>
    simp only [copySections] at h
    split at h
    · cases hw : writeAt buf sec.addr sec.data with
      | none => rw [hw] at h; cases h
      | some buf2 =>
        rw [hw] at h
        rw [ih _ h, writeAt_length _ _ _ _ hw]
    · cases h

theorem copySections_get_outside (secs : List InputSection)
    (buf buf' : List Nat) (h : copySections secs buf = some buf') (i : Nat)
    (hout : ∀ sec ∈ secs, ¬ (sec.addr ≤ i ∧ i < sec.addr + sec.data.length)) :
    buf'.get? i = buf.get? i := by
  induction secs generalizing buf with
  | nil =>
    simp only [copySections, Option.some.injEq] at h
    rw [← h]
  | cons sec rest ih =>
    simp only [copySections] at h
    split at h
    · cases hw : writeAt buf sec.addr sec.data with
      | none => rw [hw] at h; cases h
      | some buf2 =>
        rw [hw] at h
        have h1 : buf'.get? i = buf2.get? i :=
          ih _ h (fun s hs => hout s (List.mem_cons_of_mem _ hs))
        have h2 : buf2.get? i = buf.get? i := by
          refine writeAt_get_outside _ _ _ _ hw i ?_
          have := hout sec (List.mem_cons_self _ _)
          omega
        rw [h1, h2]
    · cases h

theorem copySections_data_le (secs : List InputSection) (buf buf' : List Nat)
    (h : copySections secs buf = some buf') :
    ∀ sec ∈ secs, sec.data.length ≤ sec.size := by
  induction secs generalizing buf with
  | nil => intro sec hs; cases hs
  | cons s rest ih =>
    simp only [copySections] at h
    split at h
    · rename_i hds
      cases hw : writeAt buf s.addr s.data with
      | none => rw [hw] at h; cases h
      | some buf2 =>
        rw [hw] at h
        intro sec hs
        rcases List.mem_cons.mp hs with rfl | hs'
        · exact hds
        · exact ih _ h sec hs'
    · cases h

theorem computeOutputSize_eq_getLast : ∀ (secs : List InputSection)
    (h : secs ≠ []),
    computeOutputSize secs = (secs.getLast h).addr + (secs.getLast h).size
  | [], h => absurd rfl h
  | [a], _ => by simp [computeOutputSize]
  | a :: b :: t', _ => by
    have ht' : b :: t' ≠ [] := by simp
    have h1 : computeOutputSize (a :: b :: t') =
        computeOutputSize (b :: t') := rfl
    rw [h1, computeOutputSize_eq_getLast (b :: t') ht']
    congr 1

theorem maxAddrEnd_eq_getLast : ∀ (secs : List InputSection) (h : secs ≠ [])
    (hch : secs.Pairwise (fun a b => a.addr + a.size ≤ b.addr)),
    maxAddrEnd secs = (secs.getLast h).addr + (secs.getLast h).size
  | [], h, _ => absurd rfl h
  | [a], _, _ => by simp [maxAddrEnd]
  | a :: b :: t', _, hch => by
    rcases List.pairwise_cons.mp hch with ⟨ha, ht⟩
    have ht' : b :: t' ≠ [] := by simp
    have h1 : maxAddrEnd (a :: b :: t') = max (a.addr + a.size)
        (maxAddrEnd (b :: t')) := rfl
    rw [h1, maxAddrEnd_eq_getLast (b :: t') ht' ht, List.getLast_cons ht']
    have hle : a.addr + a.size ≤
        ((b :: t').getLast ht').addr + ((b :: t').getLast ht').size := by
      have hm := ha _ (List.getLast_mem ht')
      omega
    exact Nat.max_eq_right hle

theorem foldl_or_eq_any {α : Type} (p : α → Bool) (l : List α) (b : Bool) :
    l.foldl (fun w x => w || p x) b = (b || l.any p) := by
  induction l generalizing b with
  | nil => simp
  | cons x t ih =>
    simp only [List.foldl_cons, List.any_cons, ih, Bool.or_assoc]

theorem get_output_section_flags_spec (secs : List InputSection) :
    ∃ raw, get_output_section_flags secs = SectionFlags.elf raw ∧
      raw &&& SHF_ALLOC ≠ 0 ∧
      ((raw &&& SHF_WRITE ≠ 0) ↔
        secs.any (fun s => decide (s.shFlags &&& SHF_WRITE ≠ 0)) = true) ∧
      ((raw &&& SHF_EXECINSTR ≠ 0) ↔
        secs.any (fun s => decide (s.shFlags &&& SHF_EXECINSTR ≠ 0)) = true) := by
  unfold get_output_section_flags
  rw [foldl_or_eq_any, foldl_or_eq_any]
  simp only [Bool.false_or]
  by_cases hw : secs.any (fun s => decide (s.shFlags &&& SHF_WRITE ≠ 0)) = true
  · by_cases he : secs.any (fun s => decide (s.shFlags &&& SHF_EXECINSTR ≠ 0)) = true
    · rw [if_pos hw, if_pos he]
      exact ⟨7, rfl, by decide, ⟨fun _ => hw, fun _ => by decide⟩,
        ⟨fun _ => he, fun _ => by decide⟩⟩
    · rw [if_pos hw, if_neg he]
      exact ⟨3, rfl, by decide, ⟨fun _ => hw, fun _ => by decide⟩,
        ⟨fun hc => absurd (by revert hc; decide) (fun hh => hh), fun hc => absurd hc he⟩⟩
  · by_cases he : secs.any (fun s => decide (s.shFlags &&& SHF_EXECINSTR ≠ 0)) = true
    · rw [if_neg hw, if_pos he]
      exact ⟨6, rfl, by decide, ⟨fun hc => absurd (by revert hc; decide) (fun hh => hh), fun hc => absurd hc hw⟩,
        ⟨fun _ => he, fun _ => by decide⟩⟩
    · rw [if_neg hw, if_neg he]
      exact ⟨2, rfl, by decide, ⟨fun hc => absurd (by revert hc; decide) (fun hh => hh), fun hc => absurd hc hw⟩,
        ⟨fun hc => absurd (by revert hc; decide) (fun hh => hh), fun hc => absurd hc he⟩⟩

/-! ### Claim C2 -/

/-- **C2 counterexample.** `exInputC2` has a non-empty retained set
(sections `[0x10, 0x110)` and `[0x20, 0x28)`), yet the reported output
section size is `0x28`, the end of the *last* retained section in
ascending-address order, and not the maximum `0x110` of
`addr + size` over the retained sections. -/
theorem C2_counterexample :
    (clsRun OutputObject.empty exInputC2).isSome = true ∧
    collect_loadable_sections exInputC2 ≠ [] ∧
    exSizeC2 = 0x28 ∧
    maxAddrEnd (collect_loadable_sections exInputC2) = 0x110 ∧
    exSizeC2 ≠ maxAddrEnd (collect_loadable_sections exInputC2) := by
  exact ⟨by decide, by decide, by decide, by decide, by decide⟩

/-- **C2 (amended).** For every input whose retained set is non-empty and
for which the pass completes: the reported output section size is
`addr + size` of the *last* retained section in ascending-address order
(this equals the maximum of `addr + size` whenever the retained ranges do
not overlap), and the output data buffer has exactly that length with
bytes not covered by any retained section left as zero. -/
theorem C2_output_size_and_buffer (input : ElfInput) (obj obj' : OutputObject)
    (cls : CopyLodableSectionsOutput)
    (hrun : clsRun obj input = some (obj', cls))
    (hne : collect_loadable_sections input ≠ []) :
    (∃ last, (collect_loadable_sections input).getLast? = some last ∧
       cls.output_section_size = last.addr + last.size) ∧
    ((collect_loadable_sections input).Pairwise
        (fun a b => a.addr + a.size ≤ b.addr) →
      cls.output_section_size = maxAddrEnd (collect_loadable_sections input)) ∧
    (∃ outSec, obj'.sections.get? cls.output_section_id = some outSec ∧
       outSec.data.length = cls.output_section_size ∧
       ∀ i, i < cls.output_section_size →
         (∀ sec ∈ collect_loadable_sections input,
            ¬ (sec.addr ≤ i ∧ i < sec.addr + sec.size)) →
         outSec.data.get? i = some 0) := by
  have hne' : (collect_loadable_sections input).isEmpty = false := by
    rw [List.isEmpty_eq_false]
    exact hne
  obtain ⟨buffer, hcopy, hid, hsize, hget⟩ :=
    clsRun_nonempty_inv _ _ _ _ hrun hne'
  refine ⟨⟨(collect_loadable_sections input).getLast hne,
      List.getLast?_eq_getLast _ hne, ?_⟩, ?_, ?_⟩
  · rw [hsize, computeOutputSize_eq_getLast _ hne]
  · intro hch
    rw [hsize, computeOutputSize_eq_getLast _ hne,
      maxAddrEnd_eq_getLast _ hne hch]
  · refine ⟨_, hget, ?_, ?_⟩
    · have h1 := copySections_length _ _ _ hcopy
      simp only [List.length_replicate] at h1
      rw [hsize]
      exact h1
    · intro i hi hout
      have hout' : ∀ sec ∈ collect_loadable_sections input,
          ¬ (sec.addr ≤ i ∧ i < sec.addr + sec.data.length) := by
        intro sec hs
        have h1 := hout sec hs
        have h2 := copySections_data_le _ _ _ hcopy sec hs
        omega
      have h3 := copySections_get_outside _ _ _ hcopy i hout'
      have h4 : (List.replicate
          (computeOutputSize (collect_loadable_sections input)) (0 : Nat)).get? i
          = some 0 := by
        rw [List.get?_eq_getElem?]
        exact List.getElem?_replicate_of_lt (by rw [← hsize]; exact hi)
      exact h3.trans h4

/-- Witness for the amended C2 at the concrete input `exInputC4` (one
retained section `[0x10, 0x20)`). -/
theorem C2_output_size_and_buffer_witness :
    (∃ last, (collect_loadable_sections exInputC4).getLast? = some last ∧
       exClsC4.output_section_size = last.addr + last.size) ∧
    ((collect_loadable_sections exInputC4).Pairwise
        (fun a b => a.addr + a.size ≤ b.addr) →
      exClsC4.output_section_size =
        maxAddrEnd (collect_loadable_sections exInputC4)) ∧
    (∃ outSec, exObjC4.sections.get? exClsC4.output_section_id = some outSec ∧
       outSec.data.length = exClsC4.output_section_size ∧
       ∀ i, i < exClsC4.output_section_size →
         (∀ sec ∈ collect_loadable_sections exInputC4,
            ¬ (sec.addr ≤ i ∧ i < sec.addr + sec.size)) →
         outSec.data.get? i = some 0) := by
  exact C2_output_size_and_buffer exInputC4 OutputObject.empty exObjC4 exClsC4
    (by decide) (by decide)

/-! ### Claim C5 -/

/-- **C5 counterexample.** For an input with no retained loadable section
the flag assignment in the pass never executes: the `soda` output
section keeps the default flags value of a fresh section, which does not
include `ALLOC` — contradicting the claim's "always, for every input
including one with no retained loadable sections". -/
theorem C5_counterexample :
    collect_loadable_sections exInputC5 = [] ∧
    (clsRun OutputObject.empty exInputC5).isSome = true ∧
    exFlagsC5 = SectionFlags.noneFl ∧
    sectionFlagsInclude exFlagsC5 SHF_ALLOC = false := by
  exact ⟨by decide, by decide, by decide, by decide⟩

/-- **C5 (amended).** Whenever the retained set is non-empty, the
coalesced output section's ELF flags include `ALLOC`; they include
`WRITE` iff some retained section has `WRITE` and `EXECINSTR` iff some
retained section has `EXECINSTR`.  (With an empty retained set the
section keeps the default, flagless state.) -/
theorem C5_output_section_flags (input : ElfInput) (obj obj' : OutputObject)
    (cls : CopyLodableSectionsOutput)
    (hrun : clsRun obj input = some (obj', cls))
    (hne : collect_loadable_sections input ≠ []) :
    ∃ outSec raw, obj'.sections.get? cls.output_section_id = some outSec ∧
      outSec.flags = SectionFlags.elf raw ∧
      raw &&& SHF_ALLOC ≠ 0 ∧
      ((raw &&& SHF_WRITE ≠ 0) ↔
        ∃ sec ∈ collect_loadable_sections input,
          sec.shFlags &&& SHF_WRITE ≠ 0) ∧
      ((raw &&& SHF_EXECINSTR ≠ 0) ↔
        ∃ sec ∈ collect_loadable_sections input,
          sec.shFlags &&& SHF_EXECINSTR ≠ 0) := by
  have hne' : (collect_loadable_sections input).isEmpty = false := by
    rw [List.isEmpty_eq_false]
    exact hne
  obtain ⟨buffer, hcopy, hid, hsize, hget⟩ :=
    clsRun_nonempty_inv _ _ _ _ hrun hne'
  obtain ⟨raw, hraw, halloc, hwiff, heiff⟩ :=
    get_output_section_flags_spec (collect_loadable_sections input)
  refine ⟨_, raw, hget, hraw, halloc, ?_, ?_⟩
  · rw [hwiff, List.any_eq_true]
    simp only [decide_eq_true_eq]
  · rw [heiff, List.any_eq_true]
    simp only [decide_eq_true_eq]

/-- Witness for the amended C5 at the concrete input `exInputC4`. -/
theorem C5_output_section_flags_witness :
    ∃ outSec raw,
      exObjC4.sections.get? exClsC4.output_section_id = some outSec ∧
      outSec.flags = SectionFlags.elf raw ∧
      raw &&& SHF_ALLOC ≠ 0 ∧
      ((raw &&& SHF_WRITE ≠ 0) ↔
        ∃ sec ∈ collect_loadable_sections exInputC4,
          sec.shFlags &&& SHF_WRITE ≠ 0) ∧
      ((raw &&& SHF_EXECINSTR ≠ 0) ↔
        ∃ sec ∈ collect_loadable_sections exInputC4,
          sec.shFlags &&& SHF_EXECINSTR ≠ 0) := by
  exact C5_output_section_flags exInputC4 OutputObject.empty exObjC4 exClsC4
    (by decide) (by decide)

/-! ### Counting lemmas for the section map -/

theorem countP_key_unique {α : Type} (key : α → Nat) (p : α → Bool) :
    ∀ (l : List α) (S : α), S ∈ l →
      l.Pairwise (fun a b => key a ≠ key b) →
      l.countP (fun x => (key x == key S) && p x) =
        if p S then 1 else 0 := by
  intro l
  induction l with
  | nil => intro S hmem _; cases hmem
  | cons x t ih =>
    intro S hmem hnodup
    rcases List.pairwise_cons.mp hnodup with ⟨hx, ht⟩
    rcases List.mem_cons.mp hmem with rfl | hS
    · rw [List.countP_cons]
      have h0 : t.countP (fun y => (key y == key S) && p y) = 0 := by
        rw [List.countP_eq_zero]
        intro a ha
        simp only [Bool.and_eq_true, beq_iff_eq, not_and]
        intro hk
        exact absurd hk.symm (hx a ha)
      rw [h0]
      simp
    · have hxS : key x ≠ key S := hx S hS
      rw [List.countP_cons]
      have hq : ((key x == key S) && p x) = false := by
        simp [hxS]
      rw [hq, ih S hS ht]
      simp

theorem mem_collected_sections (sections : List InputSection) :
    ∀ (segs : List Segment) (acc : List InputSection) (sec : InputSection),
      sec ∈ segs.foldl
        (fun acc seg =>
          if seg.pType ≠ PT_LOAD then acc
          else acc ++ sections.filter
            (fun sec =>
              decide (sec.index ≠ 0) && decide (sec.addr ≠ 0) &&
                is_section_in_segment sec seg)) acc →
      sec ∈ acc ∨ sec ∈ sections := by
  intro segs
  induction segs with
  | nil => intro acc sec h; exact Or.inl h
  | cons seg rest ih =>
    intro acc sec h
    simp only [List.foldl_cons] at h
    by_cases hp : seg.pType = PT_LOAD
    · rw [if_neg (by simp [hp])] at h
      rcases ih _ sec h with h1 | h2
      · rcases List.mem_append.mp h1 with h3 | h3
        · exact Or.inl h3
        · exact Or.inr (List.mem_of_mem_filter h3)
      · exact Or.inr h2
    · rw [if_pos hp] at h
      exact ih _ sec h

theorem mem_collect_loadable (input : ElfInput) (sec : InputSection)
    (h : sec ∈ collect_loadable_sections input) : sec ∈ input.sections := by
  simp only [collect_loadable_sections] at h
  have h1 := (sortStable_perm (fun (a b : InputSection) => decide (a.addr ≤ b.addr)) _).mem_iff.mp h
  rcases mem_collected_sections input.sections input.segments [] sec h1 with h2 | h2
  · cases h2
  · exact h2

theorem countP_collected (sections : List InputSection) (S : InputSection)
    (hmem : S ∈ sections)
    (hnodup : sections.Pairwise (fun a b => a.index ≠ b.index))
    (hidx : S.index ≠ 0) (haddr : S.addr ≠ 0) :
    ∀ (segs : List Segment) (acc : List InputSection),
      (segs.foldl
        (fun acc seg =>
          if seg.pType ≠ PT_LOAD then acc
          else acc ++ sections.filter
            (fun sec =>
              decide (sec.index ≠ 0) && decide (sec.addr ≠ 0) &&
                is_section_in_segment sec seg)) acc).countP
          (fun sec => sec.index == S.index) =
        acc.countP (fun sec => sec.index == S.index) +
          segs.countP (fun seg =>
            decide (seg.pType = PT_LOAD) && is_section_in_segment S seg) := by
  intro segs
  induction segs with
  | nil => intro acc; simp
  | cons seg rest ih =>
    intro acc
    simp only [List.foldl_cons, List.countP_cons]
    by_cases hp : seg.pType = PT_LOAD
    · rw [if_neg (by simp [hp])]
      rw [ih, List.countP_append]
      have hfc : (sections.filter
          (fun sec =>
            decide (sec.index ≠ 0) && decide (sec.addr ≠ 0) &&
              is_section_in_segment sec seg)).countP
            (fun sec => sec.index == S.index) =
          if is_section_in_segment S seg then 1 else 0 := by
        rw [List.countP_filter]
        rw [countP_key_unique InputSection.index
          (fun sec =>
            decide (sec.index ≠ 0) && decide (sec.addr ≠ 0) &&
              is_section_in_segment sec seg) sections S hmem hnodup]
        simp [hidx, haddr]
      rw [hfc]
      simp only [hp, decide_True, Bool.true_and]
      cases hc : is_section_in_segment S seg <;> simp <;> omega
    · rw [if_pos hp]
      rw [ih]
      simp [hp]

/-! ### Claim C3 -/

/-- **C3 counterexample.** In `exInputC3`, section 1 (range
`[0x10, 0x20)`, non-zero index and address) is wholly contained in two
overlapping `PT_LOAD` segments; the section map records it twice, not
once: there is no deduplication. -/
theorem C3_counterexample :
    (mkLoadSegment 0x10 0x10 ∈ exInputC3.segments ∧
     (mkLoadSegment 0x10 0x10).pType = PT_LOAD ∧
     is_section_in_segment (mkSection 1 0x10 0x10)
       (mkLoadSegment 0x10 0x10) = true) ∧
    (mkSection 1 0x10 0x10).addr ≠ 0 ∧
    (mkSection 1 0x10 0x10).index ≠ 0 ∧
    exMapsC3.countP (fun m => m.addrRange == (0x10, 0x20)) = 2 := by
  exact ⟨⟨by decide, by decide, by decide⟩, by decide, by decide, by decide⟩

/-- **C3 (amended).** For every input section `S` with non-zero address
and non-zero index, the section map contains exactly one entry with
`S`'s index *per `PT_LOAD` segment wholly containing `S`* (so a section
in two overlapping `PT_LOAD` segments is recorded twice), and every
entry carrying `S`'s index has input range `[addr(S), addr(S)+size(S))`. -/
theorem C3_section_map_multiplicity (input : ElfInput)
    (obj obj' : OutputObject) (cls : CopyLodableSectionsOutput)
    (S : InputSection)
    (hrun : clsRun obj input = some (obj', cls))
    (hnodup : input.sections.Pairwise (fun a b => a.index ≠ b.index))
    (hmem : S ∈ input.sections) (hidx : S.index ≠ 0) (haddr : S.addr ≠ 0) :
    cls.section_maps.countP (fun m => m.index == S.index) =
      input.segments.countP (fun seg =>
        decide (seg.pType = PT_LOAD) && is_section_in_segment S seg) ∧
    ∀ m ∈ cls.section_maps, m.index = S.index →
      m.addrRange = (S.addr, S.addr + S.size) := by
  have hmaps := clsRun_some_maps _ _ _ _ hrun
  constructor
  · rw [hmaps, List.countP_map]
    have h1 : (collect_loadable_sections input).countP
        (fun sec => sec.index == S.index) =
        input.segments.countP (fun seg =>
          decide (seg.pType = PT_LOAD) && is_section_in_segment S seg) := by
      simp only [collect_loadable_sections]
      rw [(sortStable_perm (fun (a b : InputSection) => decide (a.addr ≤ b.addr)) _).countP_eq]
      rw [countP_collected input.sections S hmem hnodup hidx haddr
        input.segments []]
      simp
    exact h1
  · intro m hm hidx2
    rw [hmaps] at hm
    obtain ⟨sec, hsec, rfl⟩ := List.mem_map.mp hm
    have hsecmem : sec ∈ input.sections := mem_collect_loadable _ _ hsec
    have heq : sec = S :=
      mem_eq_of_key_eq InputSection.index hnodup hsecmem hmem hidx2
    rw [heq]

/-- Witness for the amended C3 at the concrete input `exInputC4`. -/
theorem C3_section_map_multiplicity_witness :
    exClsC4.section_maps.countP
        (fun m => m.index == (mkSection 1 0x10 0x10).index) =
      exInputC4.segments.countP (fun seg =>
        decide (seg.pType = PT_LOAD) &&
          is_section_in_segment (mkSection 1 0x10 0x10) seg) ∧
    ∀ m ∈ exClsC4.section_maps, m.index = (mkSection 1 0x10 0x10).index →
      m.addrRange = ((mkSection 1 0x10 0x10).addr,
        (mkSection 1 0x10 0x10).addr + (mkSection 1 0x10 0x10).size) := by
  exact C3_section_map_multiplicity exInputC4 OutputObject.empty exObjC4
    exClsC4 (mkSection 1 0x10 0x10) (by decide) (by simp [exInputC4])
    (by decide) (by decide) (by decide)

/-! ### Relocation conversion lemmas -/

theorem convertOneReloc_ok_offset (cls : CopyLodableSectionsOutput)
    (sym_map : List (Nat × Nat)) (addr : Nat) (r : InputReloc) (rel : OutReloc)
    (h : convertOneReloc cls sym_map addr r = RunOutcome.ok rel) :
    rel.offset = addr := by
  unfold convertOneReloc at h
  repeat' split at h
  all_goals
    first
    | (simp only [RunOutcome.ok.injEq] at h
       subst h
       rfl)
    | cases h

theorem convertRelocsLoop_ok_append (cls : CopyLodableSectionsOutput)
    (sym_map : List (Nat × Nat)) (l1 l2 : List (Nat × InputReloc))
    (obj obj1 : OutputObject)
    (h : convertRelocsLoop cls sym_map l1 obj = RunOutcome.ok obj1) :
    convertRelocsLoop cls sym_map (l1 ++ l2) obj =
      convertRelocsLoop cls sym_map l2 obj1 := by
  induction l1 generalizing obj with
  | nil =>
    simp only [convertRelocsLoop, RunOutcome.ok.injEq] at h
    rw [List.nil_append, h]
  | cons p rest ih =>
    obtain ⟨addr, r⟩ := p
    simp only [List.cons_append, convertRelocsLoop] at h ⊢
    by_cases haddr : addr ≥ cls.output_section_size
    · rw [if_pos haddr] at h ⊢
      exact ih _ h
    · rw [if_neg haddr] at h ⊢
      cases hc : convertOneReloc cls sym_map addr r with
      | ok rel =>
        rw [hc] at h
        exact ih _ h
      | err e => rw [hc] at h; simp at h
      | panic => rw [hc] at h; simp at h

theorem convertRelocsLoop_relocs (cls : CopyLodableSectionsOutput)
    (sym_map : List (Nat × Nat)) :
    ∀ (relocs : List (Nat × InputReloc)) (obj obj' : OutputObject),
      convertRelocsLoop cls sym_map relocs obj = RunOutcome.ok obj' →
      ∃ new, obj'.relocs = obj.relocs ++ new ∧
        new.map (fun p => p.2.offset) =
          (relocs.filter
            (fun p => decide (p.1 < cls.output_section_size))).map
            (fun p => p.1) ∧
        ∀ p ∈ new, p.1 = cls.output_section_id := by
  intro relocs
  induction relocs with
  | nil =>
    intro obj obj' h
    simp only [convertRelocsLoop, RunOutcome.ok.injEq] at h
    exact ⟨[], by simp [h], by simp, by simp⟩
  | cons p rest ih =>
    obtain ⟨addr, r⟩ := p
    intro obj obj' h
    simp only [convertRelocsLoop] at h
    by_cases haddr : addr ≥ cls.output_section_size
    · rw [if_pos haddr] at h
      obtain ⟨new, h1, h2, h3⟩ := ih _ _ h
      have hf : decide (addr < cls.output_section_size) = false := by
        simp
        omega
      refine ⟨new, h1, ?_, h3⟩
      rw [List.filter_cons_of_neg (by simpa using hf)]
      exact h2
    · rw [if_neg haddr] at h
      cases hc : convertOneReloc cls sym_map addr r with
      | ok rel =>
        rw [hc] at h
        obtain ⟨new, h1, h2, h3⟩ := ih _ _ h
        refine ⟨(cls.output_section_id, rel) :: new, ?_, ?_, ?_⟩
        · rw [h1]
          simp
        · have ht : decide (addr < cls.output_section_size) = true := by
            simp
            omega
          rw [List.filter_cons_of_pos (by simpa using ht)]
          simp only [List.map_cons]
          rw [h2, convertOneReloc_ok_offset _ _ _ _ _ hc]
        · intro q hq
          rcases List.mem_cons.mp hq with rfl | hq'
          · rfl
          · exact h3 q hq'
      | err e => rw [hc] at h; simp at h
      | panic => rw [hc] at h; simp at h

theorem convertOneReloc_unsupported (cls : CopyLodableSectionsOutput)
    (sym_map : List (Nat × Nat)) (addr : Nat) (r : InputReloc)
    (hk : ¬ isSupportedRelocKind r.kind) :
    convertOneReloc cls sym_map addr r =
      RunOutcome.err (ConvertRelocationError.unsupportedReloc r.kind) := by
  unfold isSupportedRelocKind at hk
  simp only [not_or] at hk
  obtain ⟨h1, h2, h3, h4, h5, h6⟩ := hk
  unfold convertOneReloc
  rw [if_neg h1, if_neg (by tauto), if_neg h6]

theorem convertOneReloc_missing_symbol (cls : CopyLodableSectionsOutput)
    (sym_map : List (Nat × Nat)) (addr : Nat) (r : InputReloc) (idx : Nat)
    (hsym : isSymbolicRelocKind r.kind)
    (htgt : r.target = RelocationTarget.symbol idx)
    (hlookup : get_output_symbol sym_map idx = none) :
    convertOneReloc cls sym_map addr r = RunOutcome.panic := by
  have h1 : r.kind ≠ RelocationKind.elf R_X86_64_RELATIVE := by
    rcases hsym with h | h | h | h <;> rw [h] <;> decide
  have hsym' : r.kind = RelocationKind.absolute ∨
      r.kind = RelocationKind.elf R_X86_64_64 ∨
      r.kind = RelocationKind.elf R_X86_64_GLOB_DAT ∨
      r.kind = RelocationKind.elf R_X86_64_JUMP_SLOT := hsym
  unfold convertOneReloc
  rw [if_neg h1, if_pos hsym']
  simp only [htgt, hlookup]

/-! ### Claim C4 -/

/-- **C4 counterexample.** The relocation of `exInputC4` sits at address
`0x5`, which lies outside every retained range recorded in the CLS
section map (`[0x10, 0x20)` only); the claim says it is skipped, yet the
pass emits an output relocation with offset `0x5`, because the code only
skips relocations at addresses `≥ output_section_size = 0x20`. -/
theorem C4_counterexample :
    (∀ m ∈ exClsC4.section_maps,
      ¬ (m.addrRange.1 ≤ 0x5 ∧ 0x5 < m.addrRange.2)) ∧
    exRelocsOutC4.map (fun p => p.2.offset) = [0x5] := by
  exact ⟨by decide, by decide⟩

/-- **C4 (amended).** On an x86-64 input, a dynamic relocation is skipped
(no output relocation emitted) exactly when its input address is not
below the CLS output section size; every other relocation yields an
output relocation appended to the coalesced output section whose offset
equals the input address. -/
theorem C4_reloc_offsets (cls : CopyLodableSectionsOutput)
    (sym_map : List (Nat × Nat)) (input : ElfInput) (obj obj' : OutputObject)
    (harch : input.arch = Arch.x86_64)
    (hok : convertRelocationRun cls sym_map input obj = RunOutcome.ok obj') :
    ∃ new, obj'.relocs = obj.relocs ++ new ∧
      new.map (fun p => p.2.offset) =
        (input.dynRelocs.filter
          (fun p => decide (p.1 < cls.output_section_size))).map
          (fun p => p.1) ∧
      ∀ p ∈ new, p.1 = cls.output_section_id := by
  obtain ⟨arch, segs, secs, dsyms, drel⟩ := input
  simp only at harch
  subst harch
  simp only [convertRelocationRun, convert_x86_64_relocations] at hok
  exact convertRelocsLoop_relocs cls sym_map drel obj obj' hok

/-- Witness for the amended C4 at the concrete input `exInputC4`. -/
theorem C4_reloc_offsets_witness :
    ∃ new, exObjRelC4.relocs = exObjC4.relocs ++ new ∧
      new.map (fun p => p.2.offset) =
        (exInputC4.dynRelocs.filter
          (fun p => decide (p.1 < exClsC4.output_section_size))).map
          (fun p => p.1) ∧
      ∀ p ∈ new, p.1 = exClsC4.output_section_id := by
  exact C4_reloc_offsets exClsC4 [] exInputC4 exObjC4 exObjRelC4 rfl (by decide)

/-! ### Claim C6 -/

/-- **C6.** The relocation conversion pass fails with an
unsupported-architecture error naming the architecture for every input
whose architecture is not x86-64; and on an x86-64 input, when the pass
reaches an in-range dynamic relocation whose kind is outside the
supported table, it fails with an unsupported-reloc error carrying that
kind. -/
theorem C6_unsupported_errors :
    (∀ (cls : CopyLodableSectionsOutput) (sym_map : List (Nat × Nat))
       (input : ElfInput) (obj : OutputObject),
       input.arch ≠ Arch.x86_64 →
       convertRelocationRun cls sym_map input obj =
         RunOutcome.err (ConvertRelocationError.unsupportedArch input.arch)) ∧
    (∀ (cls : CopyLodableSectionsOutput) (sym_map : List (Nat × Nat))
       (input : ElfInput) (obj obj1 : OutputObject)
       (pre rest : List (Nat × InputReloc)) (addr : Nat) (r : InputReloc),
       input.arch = Arch.x86_64 →
       input.dynRelocs = pre ++ (addr, r) :: rest →
       convertRelocsLoop cls sym_map pre obj = RunOutcome.ok obj1 →
       addr < cls.output_section_size →
       ¬ isSupportedRelocKind r.kind →
       convertRelocationRun cls sym_map input obj =
         RunOutcome.err (ConvertRelocationError.unsupportedReloc r.kind)) := by
  constructor
  · intro cls sym_map input obj hne
    obtain ⟨arch, segs, secs, dsyms, drel⟩ := input
    simp only at hne
    cases arch with
    | x86_64 => exact absurd rfl hne
    | i386 => rfl
    | aarch64 => rfl
    | other tag => rfl
  · intro cls sym_map input obj obj1 pre rest addr r harch hrel hpre hlt hk
    obtain ⟨arch, segs, secs, dsyms, drel⟩ := input
    simp only at harch hrel
    subst harch
    subst hrel
    simp only [convertRelocationRun, convert_x86_64_relocations]
    rw [convertRelocsLoop_ok_append cls sym_map pre _ obj obj1 hpre]
    simp only [convertRelocsLoop]
    rw [if_neg (by omega), convertOneReloc_unsupported cls sym_map addr r hk]

/-- Witness for C6: an AArch64 input, and an x86-64 input whose dynamic
relocation has the unsupported kind `R_X86_64_COPY`-like tag 99. -/
theorem C6_unsupported_errors_witness :
    convertRelocationRun defaultCls [] exInputC6a OutputObject.empty =
      RunOutcome.err (ConvertRelocationError.unsupportedArch Arch.aarch64) ∧
    convertRelocationRun exClsC6 [] exInputC6b exObjC6 =
      RunOutcome.err
        (ConvertRelocationError.unsupportedReloc (RelocationKind.elf 99)) := by
  constructor
  · exact C6_unsupported_errors.1 defaultCls [] exInputC6a OutputObject.empty
      (by decide)
  · exact C6_unsupported_errors.2 exClsC6 [] exInputC6b exObjC6 exObjC6 []
      [] 0x10 exRelocC6 rfl rfl rfl (by decide) (by decide)

/-! ### Claim C7 -/

/-- **C7.** On an x86-64 input, when the pass reaches an in-range
dynamic relocation of symbolic kind whose target symbol index has no
entry in the symbol map — e.g. a defined dynamic symbol whose defining
section was not retained — the relocation conversion pass panics
(`unwrap` of `None`) instead of returning a recoverable error. -/
theorem C7_missing_symbol_panics (cls : CopyLodableSectionsOutput)
    (sym_map : List (Nat × Nat)) (input : ElfInput) (obj obj1 : OutputObject)
    (pre rest : List (Nat × InputReloc)) (addr : Nat) (r : InputReloc)
    (idx : Nat)
    (harch : input.arch = Arch.x86_64)
    (hrel : input.dynRelocs = pre ++ (addr, r) :: rest)
    (hpre : convertRelocsLoop cls sym_map pre obj = RunOutcome.ok obj1)
    (hlt : addr < cls.output_section_size)
    (hsym : isSymbolicRelocKind r.kind)
    (htgt : r.target = RelocationTarget.symbol idx)
    (hlookup : get_output_symbol sym_map idx = none) :
    convertRelocationRun cls sym_map input obj = RunOutcome.panic := by
  obtain ⟨arch, segs, secs, dsyms, drel⟩ := input
  simp only at harch hrel
  subst harch
  subst hrel
  simp only [convertRelocationRun, convert_x86_64_relocations]
  rw [convertRelocsLoop_ok_append cls sym_map pre _ obj obj1 hpre]
  simp only [convertRelocsLoop]
  rw [if_neg (by omega),
    convertOneReloc_missing_symbol cls sym_map addr r idx hsym htgt hlookup]

/-- Witness for C7 at the concrete input `exInputC7`: symbol 5 is
defined in the non-retained section 2, so the symbol map is empty and
the in-range `R_X86_64_64` relocation targeting it panics. -/
theorem C7_missing_symbol_panics_witness :
    convertRelocationRun exClsC7 exMapC7 exInputC7 exObjSymC7 =
      RunOutcome.panic := by
  exact C7_missing_symbol_panics exClsC7 exMapC7 exInputC7 exObjSymC7
    exObjSymC7 [] [] 0x10 exRelocC7 5 rfl rfl rfl (by decide) (by decide)
    rfl (by decide)

end Soda
